import Mathlib

/-!
Shallow embedding of the `hive-ai-agent` repository core:
`agent.py` (the tool-calling conversation loop `HiveAgent.chat`),
`api_client.py` (`HiveApiClient.execute_tool`, `_handle_response`),
`rag/embedder.py` (`Embedder.embed_batch`),
`rag/vectorstore.py` (`VectorStore.upsert`, `VectorStore.count`), and
`rag/retriever.py` (`RAGRetriever.__init__`).

External collaborators (the Ollama model endpoint, the HTTP transport,
the PostgreSQL engine behind pgvector, the knowledge loader) are modelled
as explicit oracles / state; the repository's own code is translated
function by function. Python exceptions are modelled with `Except`.
-/

namespace HiveSpec

/-- Python/JSON-like values, as they appear in argument mappings and
result dictionaries of the repository (`dict`, `list`, `str`, ints, bools). -/
inductive PyVal where
  | str : String → PyVal
  | num : Nat → PyVal
  | bool : Bool → PyVal
  | list : List PyVal → PyVal
  | obj : List (String × PyVal) → PyVal

/-- First-match association-list lookup: Python `d[k]` availability /
`d.get(k)` on a dict (keys are unique in a Python dict, so first match
is the match). -/
def dictGet : List (String × PyVal) → String → Option PyVal
  | [], _ => none
  | (k, v) :: rest, key => if k = key then some v else dictGet rest key

/-- The Python exceptions that can escape the code paths we model:
`KeyError` from `tool_args["…"]` inside `execute_tool`'s dispatch lambdas,
a transport error raised by `httpx` inside a client method, and an
exception raised by an LLM call (`client.chat.completions.create`). -/
inductive Exc where
  | keyError (key : String)
  | transport
  | model
deriving DecidableEq

/-! ### api_client.py -/

/-- An HTTP response as `_handle_response` consumes it: its status code,
its body parsed as JSON when that succeeds (`response.json()`), and its
raw text (`response.text`). -/
structure HttpResponse where
  status_code : Nat
  json : Option PyVal
  text : String

/-- Model of `HiveApiClient._handle_response` (api_client.py lines 168–192):
wraps a response into `{"status_code": …, "success": response.is_success,
"data": parsed-or-raw}`. `httpx.Response.is_success` is true exactly for
status codes 200–299. -/
def handle_response (r : HttpResponse) : PyVal :=
  let data : PyVal :=
    match r.json with
    | some j => j
    | none => PyVal.obj [("raw", PyVal.str r.text)]
  PyVal.obj [("status_code", PyVal.num r.status_code),
             ("success", PyVal.bool (decide (200 ≤ r.status_code ∧ r.status_code < 300))),
             ("data", data)]

/-- The concrete REST request each client method issues
(`delete_table`, `create_table`, `get_table_info`, `list_tables`,
`list_databases`), carrying exactly the arguments the method passes on. -/
inductive ApiReq where
  | deleteTable (schema table : PyVal)
  | createTable (schema table columns : PyVal)
  | getTableInfo (schema table : PyVal)
  | listTables (schema : PyVal)
  | listDatabases

/-- The HTTP transport behind `self.client`: for a request it either
returns a response or raises (connection error, timeout, …). -/
def Transport := ApiReq → Except Exc HttpResponse

/-- Python `tool_args["key"]`: the value when present, `KeyError` when not. -/
def getItem (args : List (String × PyVal)) (key : String) : Except Exc PyVal :=
  match dictGet args key with
  | some v => Except.ok v
  | none => Except.error (Exc.keyError key)

/-- The sentinel returned for an unrecognized tool name
(api_client.py line 221): `{"success": False, "error": "Unknown tool: …"}`. -/
def unknownToolResult (tool_name : String) : PyVal :=
  PyVal.obj [("success", PyVal.bool false),
             ("error", PyVal.str ("Unknown tool: " ++ tool_name))]

/-- Model of `HiveApiClient.execute_tool` (api_client.py lines 198–222).
The dispatch table is consulted first (`dispatch.get(tool_name)`); an
unknown name returns `{"success": False, "error": "Unknown tool: …"}`
without touching the arguments. A known name runs its lambda, which
subscripts the argument dict (possible `KeyError`), issues the request
through the client method and wraps the response with `_handle_response`. -/
def execute_tool (tr : Transport) (tool_name : String)
    (tool_args : List (String × PyVal)) : Except Exc PyVal :=
  if tool_name = "delete_table" then do
    let schema ← getItem tool_args "schema"
    let table ← getItem tool_args "table_name"
    let resp ← tr (ApiReq.deleteTable schema table)
    pure (handle_response resp)
  else if tool_name = "create_table" then do
    let schema ← getItem tool_args "schema"
    let table ← getItem tool_args "table_name"
    let columns ← getItem tool_args "columns"
    let resp ← tr (ApiReq.createTable schema table columns)
    pure (handle_response resp)
  else if tool_name = "get_table_info" then do
    let schema ← getItem tool_args "schema"
    let table ← getItem tool_args "table_name"
    let resp ← tr (ApiReq.getTableInfo schema table)
    pure (handle_response resp)
  else if tool_name = "list_tables" then do
    let schema ← getItem tool_args "schema"
    let resp ← tr (ApiReq.listTables schema)
    pure (handle_response resp)
  else if tool_name = "list_databases" then do
    let resp ← tr ApiReq.listDatabases
    pure (handle_response resp)
  else
    pure (unknownToolResult tool_name)

/-- The closed catalog of tool names `execute_tool` dispatches on
(the keys of its `dispatch` dict, matching `tools.py`). -/
def knownTool (tool_name : String) : Bool :=
  tool_name = "delete_table" || tool_name = "create_table" ||
  tool_name = "get_table_info" || tool_name = "list_tables" ||
  tool_name = "list_databases"

/-- The `required` argument keys each tool declares in `tools.py`
(lines 20–133): the JSON-Schema `required` list of its parameters. -/
def declaredKeys (tool_name : String) : List String :=
  if tool_name = "delete_table" then ["schema", "table_name"]
  else if tool_name = "create_table" then ["schema", "table_name", "columns"]
  else if tool_name = "get_table_info" then ["schema", "table_name"]
  else if tool_name = "list_tables" then ["schema"]
  else if tool_name = "list_databases" then []
  else []

/-! ### agent.py -/

/-- One tool invocation requested by the model
(`tool_call.id`, `tool_call.function.name`, `tool_call.function.arguments`).
Arguments are modelled after `json.loads` has parsed them into a dict. -/
structure ToolCall where
  id : String
  name : String
  args : List (String × PyVal)

/-- The message object returned by a chat-completion call:
its text content and its (possibly empty) list of tool calls. -/
structure ModelMsg where
  content : String
  tool_calls : List ToolCall

/-- A conversation message of `self.messages`. An assistant message
either is plain (`{"role": "assistant", "content": …}`) or carries the
model's tool calls (the SDK message appended unchanged on line 110);
a tool message is the dict built on lines 125–130, keeping the result
dictionary as its content (`json.dumps` is injective on it). -/
inductive Msg where
  | system (content : String)
  | user (content : String)
  | assistant (content : String)
  | assistantCalls (content : String) (calls : List ToolCall)
  | tool (tool_call_id : String) (name : String) (content : PyVal)

/-- The role string of a message. -/
def Msg.role : Msg → String
  | .system _ => "system"
  | .user _ => "user"
  | .assistant _ => "assistant"
  | .assistantCalls _ _ => "assistant"
  | .tool _ _ _ => "tool"

/-- The system prompt installed as the first message (`SYSTEM_PROMPT`). -/
def SYSTEM_PROMPT : String := "당신은 Hive 메타스토어를 관리하는 AI Agent입니다."

/-- The augmented user message body of `chat` (agent.py lines 85–88):
retrieved context and the original input in delimited sections. -/
def augment (rag_context user_input : String) : String :=
  "[관련 API 문서 및 예제]\n" ++ rag_context ++ "\n\n[사용자 요청]\n" ++ user_input

/-- The external collaborators a turn of `chat` talks to, as oracles:
the retriever (`self.retriever.retrieve`), the first model call (with the
tool catalog), the HTTP transport used by `execute_tool`, and the second
model call (without tools). Each may raise. The model oracles are
functions of the full message list they are invoked with. -/
structure Env where
  retrieve : String → Except Exc String
  modelFirst : List Msg → Except Exc ModelMsg
  transport : Transport
  modelSecond : List Msg → Except Exc String

/-- The tool-execution loop of `chat` (agent.py lines 113–130): for each
requested call in model order, run `execute_tool` and build the tool
message carrying its call id, its name and the serialized result. The
accumulated list is local (`tool_results`); an exception mid-loop
discards it, which `Except` models. -/
def runTools (tr : Transport) : List ToolCall → Except Exc (List Msg)
  | [] => Except.ok []
  | c :: cs => do
    let result ← execute_tool tr c.name c.args
    let rest ← runTools tr cs
    pure (Msg.tool c.id c.name result :: rest)

/-- Outcome of one turn: the returned final string, or the exception
that escaped `chat`. -/
inductive TurnOutcome where
  | ok (answer : String)
  | exc (e : Exc)

/-- Stage 3 of `chat` (agent.py lines 135–145): the second model call on
the extended history `st3`, whose text is appended as the final
assistant message and returned. -/
def chatAfterTools (env : Env) (st3 : List Msg) : List Msg × TurnOutcome :=
  match env.modelSecond st3 with
  | Except.error e => (st3, TurnOutcome.exc e)
  | Except.ok final_message =>
    (st3 ++ [Msg.assistant final_message], TurnOutcome.ok final_message)

/-- Stage 2 of `chat` (agent.py lines 108–133), entered with the
tool-call-bearing model message: append it unchanged (line 110), run the
tool loop — the accumulated `tool_results` are extended onto the history
only after all calls complete (line 133) and are lost if the loop raises —
then proceed to stage 3. `st1` is the history after the augmented user
message was appended. -/
def chatWithTools (env : Env) (st1 : List Msg) (content : String)
    (tool_calls : List ToolCall) : List Msg × TurnOutcome :=
  let st2 := st1 ++ [Msg.assistantCalls content tool_calls]
  match runTools env.transport tool_calls with
  | Except.error e => (st2, TurnOutcome.exc e)
  | Except.ok tool_results => chatAfterTools env (st2 ++ tool_results)

/-- The branch on the first model response (agent.py lines 101–110):
without tool calls the model's text is appended as a plain assistant
message and returned; with tool calls stage 2 runs. -/
def chatOnModelMsg (env : Env) (st1 : List Msg) (m : ModelMsg) :
    List Msg × TurnOutcome :=
  if m.tool_calls.isEmpty then
    (st1 ++ [Msg.assistant m.content], TurnOutcome.ok m.content)
  else
    chatWithTools env st1 m.content m.tool_calls

/-- The first model call of `chat` (agent.py lines 93–99), made with the
history extended by the augmented user message. -/
def chatAfterRetrieve (env : Env) (st : List Msg)
    (user_input rag_context : String) : List Msg × TurnOutcome :=
  let st1 := st ++ [Msg.user (augment rag_context user_input)]
  match env.modelFirst st1 with
  | Except.error e => (st1, TurnOutcome.exc e)
  | Except.ok m => chatOnModelMsg env st1 m

/-- Model of `HiveAgent.chat` (agent.py lines 67–145) as a state transformer on
`self.messages`, returning the history it leaves behind together with
the outcome. Order of effects follows the source exactly:
retrieve → append augmented user message → first model call →
(no tool calls: append plain assistant, return content) |
(tool calls: append the model message unchanged, run all tools,
extend history with all tool messages only after all calls complete,
second model call, append final assistant message, return it).
On an exception the history reached so far is kept (no rollback). -/
def chat (env : Env) (st : List Msg) (user_input : String) :
    List Msg × TurnOutcome :=
  match env.retrieve user_input with
  | Except.error e => (st, TurnOutcome.exc e)
  | Except.ok rag_context => chatAfterRetrieve env st user_input rag_context

/-- The initial history of a `HiveAgent` (and the history after `reset`):
the system prompt alone. -/
def initMessages : List Msg := [Msg.system SYSTEM_PROMPT]

/-! ### The message-pairing invariant -/

/-- Predicate `isToolBlock calls msgs`: holds when `msgs` is exactly one tool message
per call of `calls`, in order, each cross-referenced by the call id and
carrying the call's tool name. -/
def isToolBlock : List ToolCall → List Msg → Bool
  | [], [] => true
  | c :: cs, Msg.tool tid tname _ :: ms =>
    tid = c.id && tname = c.name && isToolBlock cs ms
  | _, _ => false

/-- Worker for the pairing invariant: `pending` is the suffix of tool
calls issued by the latest tool-call-bearing assistant message that are
still awaiting their tool messages. While calls are pending, only the
matching tool message may come next; with no call pending, a tool
message is an orphan, and an assistant message bearing calls opens a new
pending block. -/
def pairedAux : List ToolCall → List Msg → Bool
  | c :: cs, Msg.tool tid tname _ :: rest =>
    tid = c.id && tname = c.name && pairedAux cs rest
  | _ :: _, _ => false
  | [], [] => true
  | [], Msg.assistantCalls _ calls :: rest => pairedAux calls rest
  | [], Msg.tool _ _ _ :: _ => false
  | [], Msg.system _ :: rest => pairedAux [] rest
  | [], Msg.user _ :: rest => pairedAux [] rest
  | [], Msg.assistant _ :: rest => pairedAux [] rest

/-- The pairing invariant on a history: every tool-call-bearing assistant
message is immediately followed by exactly one tool message per call it
issued (in order, matched by call id, hence before any further user
message), and no tool message occurs outside such a block. -/
def paired (history : List Msg) : Bool := pairedAux [] history

/-! ### rag/embedder.py -/

/-- One entry of the embeddings response (`response.data`): its declared
input index and its vector. Vector components are opaque here; we use
integers so that everything stays computable. -/
structure EmbItem where
  index : Nat
  embedding : List Int
deriving DecidableEq

/-- Model of `Embedder.embed_batch` (rag/embedder.py lines 41–54), applied to the
transport's response entries: sort the entries by their declared input
index (`sorted(response.data, key=lambda x: x.index)`) and return their
embeddings. -/
def embed_batch (data : List EmbItem) : List (List Int) :=
  (data.mergeSort (fun a b => a.index ≤ b.index)).map EmbItem.embedding

/-- What a well-formed embeddings response contains for a batch of
texts under a ground-truth embedding `f`: one entry per input position
`i`, declaring index `i` and carrying the embedding of text `i`. The
backend may deliver these entries in any order. -/
def canonicalResponse (texts : List String) (f : String → List Int) :
    List EmbItem :=
  (List.range texts.length).map (fun i => ⟨i, f (texts.getD i "")⟩)

/-! ### rag/vectorstore.py -/

/-- A knowledge document as the loader produces it: `{"id": …,
"text": …, "metadata": …}`. Metadata is kept as the association list
that `json.dumps` would serialize. -/
structure Doc where
  id : String
  text : String
  metadata : List (String × PyVal)

/-- A stored row of the collection table
(`document TEXT, metadata JSONB, embedding vector(N)`). -/
structure Record where
  document : String
  metadata : List (String × PyVal)
  embedding : List Int

/-- The collection table: rows keyed by the `TEXT PRIMARY KEY` id,
in insertion order. -/
abbrev Store := List (String × Record)

/-- Whether the table already holds a row with this id. -/
def hasId (st : Store) (id : String) : Bool :=
  st.any (fun p => p.1 = id)

/-- The semantics of one
`INSERT … ON CONFLICT (id) DO UPDATE SET document, metadata, embedding`
statement (rag/vectorstore.py lines 96–110): replace the row when the
primary key is present, append a new row otherwise. -/
def sqlUpsertRow (st : Store) (id : String) (r : Record) : Store :=
  if hasId st id then
    st.map (fun p => if p.1 = id then (id, r) else p)
  else
    st ++ [(id, r)]

/-- Model of `VectorStore.upsert` (rag/vectorstore.py lines 83–112): one upsert
statement per `zip(docs, embeddings)` pair, in order. -/
def upsert (st : Store) (docs : List Doc) (embeddings : List (List Int)) :
    Store :=
  (docs.zip embeddings).foldl
    (fun s de => sqlUpsertRow s de.1.id ⟨de.1.text, de.1.metadata, de.2⟩) st

/-- Model of `VectorStore.count` (rag/vectorstore.py lines 140–152):
`SELECT COUNT(*)` on the table. -/
def count (st : Store) : Nat := st.length

/-- First-match row lookup by primary key. -/
def storeGet : Store → String → Option Record
  | [], _ => none
  | (k, v) :: rest, id => if k = id then some v else storeGet rest id

/-! ### rag/retriever.py -/

/-- Model of `RAGRetriever.__init__` (rag/retriever.py lines 26–49) restricted to
its effect on the bound collection: when `count() == 0`, `_build_index`
loads the corpus, batch-embeds all document texts in one call
(`embedB` is the composite of `embed_batch` with the embeddings
transport) and upserts the pairs; otherwise the store is untouched. -/
def retrieverInit (corpus : List Doc) (embedB : List String → List (List Int))
    (st : Store) : Store :=
  if count st = 0 then
    upsert st corpus (embedB (corpus.map Doc.text))
  else
    st

/-! ### Concrete instances used by the witnesses -/

/-- A transport whose every response is HTTP 200 with a JSON body. -/
def tr200 : Transport := fun _ =>
  Except.ok ⟨200, some (PyVal.obj [("databases",
    PyVal.list [PyVal.str "public", PyVal.str "analytics"])]), "body"⟩

/-- A transport that answers `list_tables` with HTTP 500 (an unsuccessful
result envelope) and everything else with HTTP 200. -/
def trMixed : Transport := fun req =>
  match req with
  | ApiReq.listTables _ => Except.ok ⟨500, some (PyVal.obj []), "oops"⟩
  | _ => Except.ok ⟨200, some (PyVal.obj []), "fine"⟩

/-- A single-tool-call environment: the model requests `list_databases`
once, every oracle succeeds. -/
def envSingle : Env :=
  { retrieve := fun _ => Except.ok "docs"
  , modelFirst := fun _ =>
      Except.ok ⟨"", [⟨"call_1", "list_databases", []⟩]⟩
  , transport := tr200
  , modelSecond := fun _ => Except.ok "There are two databases." }

/-- An environment in which the model requests `delete_table` with an
empty argument mapping, so the tool loop raises `KeyError("schema")`. -/
def envKeyErr : Env :=
  { retrieve := fun _ => Except.ok "docs"
  , modelFirst := fun _ =>
      Except.ok ⟨"", [⟨"call_1", "delete_table", []⟩]⟩
  , transport := tr200
  , modelSecond := fun _ => Except.ok "done" }

/-- An environment in which the model requests a tool name outside the
catalog. -/
def envUnknown : Env :=
  { retrieve := fun _ => Except.ok "docs"
  , modelFirst := fun _ =>
      Except.ok ⟨"", [⟨"call_1", "drop_database", [("name", PyVal.str "p")]⟩]⟩
  , transport := tr200
  , modelSecond := fun _ => Except.ok "Sorry, I cannot do that." }

/-- The top-level keys of a result dictionary. -/
def pyKeys : PyVal → List String
  | PyVal.obj fields => fields.map Prod.fst
  | _ => []

/-- Key lookup on a result dictionary. -/
def pyGet : PyVal → String → Option PyVal
  | PyVal.obj fields, key => dictGet fields key
  | _, _ => none

/-- The per-call result function realized by `trMixed`: an unsuccessful
HTTP-500 envelope for `list_tables`, a successful HTTP-200 envelope for
`list_databases`. -/
def resMixed (c : ToolCall) : PyVal :=
  if c.name = "list_tables" then
    handle_response ⟨500, some (PyVal.obj []), "oops"⟩
  else
    handle_response ⟨200, some (PyVal.obj []), "fine"⟩

/-! ### Lemmas about the pairing invariant -/

/-- A complete tool block has exactly one message per call. -/
theorem isToolBlock_length (cs : List ToolCall) :
    ∀ ms : List Msg, isToolBlock cs ms = true → ms.length = cs.length := by
  induction cs with
  | nil =>
    intro ms h
    cases ms with
    | nil => rfl
    | cons m ms => simp [isToolBlock] at h
  | cons c cs ih =>
    intro ms h
    cases ms with
    | nil => simp [isToolBlock] at h
    | cons m ms =>
      cases m with
      | tool tid tname v =>
        simp only [isToolBlock, Bool.and_eq_true] at h
        simp [ih ms h.2]
      | system _ => simp [isToolBlock] at h
      | user _ => simp [isToolBlock] at h
      | assistant _ => simp [isToolBlock] at h
      | assistantCalls _ _ => simp [isToolBlock] at h

/-- Pending-block weakening: a history that completes the pending block
and satisfies the invariant still does so when an invariant-satisfying
suffix is appended. -/
theorem pairedAux_append (s t : List Msg) :
    ∀ p : List ToolCall, pairedAux p s = true → pairedAux [] t = true →
      pairedAux p (s ++ t) = true := by
  induction s with
  | nil =>
    intro p hs ht
    cases p with
    | nil => simpa using ht
    | cons c cs => simp [pairedAux] at hs
  | cons m rest ih =>
    intro p hs ht
    cases p with
    | cons c cs =>
      cases m with
      | tool tid tname v =>
        simp only [pairedAux, Bool.and_eq_true] at hs
        rw [List.cons_append]
        simp only [pairedAux, Bool.and_eq_true, decide_eq_true_eq]
        exact ⟨⟨by simpa using hs.1.1, by simpa using hs.1.2⟩,
          ih cs hs.2 ht⟩
      | system _ => simp [pairedAux] at hs
      | user _ => simp [pairedAux] at hs
      | assistant _ => simp [pairedAux] at hs
      | assistantCalls _ _ => simp [pairedAux] at hs
    | nil =>
      cases m with
      | tool tid tname v => simp [pairedAux] at hs
      | system c =>
        rw [List.cons_append]
        exact ih [] (by simpa [pairedAux] using hs) ht
      | user c =>
        rw [List.cons_append]
        exact ih [] (by simpa [pairedAux] using hs) ht
      | assistant c =>
        rw [List.cons_append]
        exact ih [] (by simpa [pairedAux] using hs) ht
      | assistantCalls c calls =>
        rw [List.cons_append]
        simp only [pairedAux] at hs ⊢
        exact ih calls hs ht

/-- The invariant is closed under appending an invariant-satisfying
suffix: tool blocks certified inside the first part never reach into the
second part. -/
theorem paired_append (s t : List Msg) (hs : paired s = true)
    (ht : paired t = true) : paired (s ++ t) = true :=
  pairedAux_append s t [] hs ht

/-- A complete tool block discharges exactly its pending calls. -/
theorem pairedAux_block (calls : List ToolCall) :
    ∀ (results tail : List Msg), isToolBlock calls results = true →
      pairedAux [] tail = true → pairedAux calls (results ++ tail) = true := by
  induction calls with
  | nil =>
    intro results tail hb ht
    cases results with
    | nil => simpa using ht
    | cons m ms => simp [isToolBlock] at hb
  | cons c cs ih =>
    intro results tail hb ht
    cases results with
    | nil => simp [isToolBlock] at hb
    | cons m ms =>
      cases m with
      | tool tid tname v =>
        simp only [isToolBlock, Bool.and_eq_true] at hb
        rw [List.cons_append]
        simp only [pairedAux, Bool.and_eq_true]
        exact ⟨hb.1, ih ms tail hb.2 ht⟩
      | system _ => simp [isToolBlock] at hb
      | user _ => simp [isToolBlock] at hb
      | assistant _ => simp [isToolBlock] at hb
      | assistantCalls _ _ => simp [isToolBlock] at hb

/-- A user message, a tool-call-bearing assistant message, its complete
tool block and any invariant-satisfying tail form an invariant-satisfying
history fragment. -/
theorem paired_callBlock (a c : String) (calls : List ToolCall)
    (results tail : List Msg) (hb : isToolBlock calls results = true)
    (ht : paired tail = true) :
    paired (Msg.user a :: Msg.assistantCalls c calls :: (results ++ tail)) =
      true := by
  simp only [paired, pairedAux]
  exact pairedAux_block calls results tail hb ht

/-- A successful run of the tool loop produces exactly the tool block of
the requested calls: one tool message per call, in order, matched by id
and name. -/
theorem runTools_isToolBlock (tr : Transport) :
    ∀ (cs : List ToolCall) (ms : List Msg),
      runTools tr cs = Except.ok ms → isToolBlock cs ms = true := by
  intro cs
  induction cs with
  | nil =>
    intro ms h
    simp only [runTools] at h
    cases h
    rfl
  | cons c cs ih =>
    intro ms h
    simp only [runTools] at h
    cases hexec : execute_tool tr c.name c.args with
    | error e => rw [hexec] at h; simp [Bind.bind, Except.bind] at h
    | ok result =>
      rw [hexec] at h
      cases hrest : runTools tr cs with
      | error e =>
        rw [hrest] at h
        simp [Bind.bind, Except.bind, Functor.map, Except.map] at h
      | ok rest =>
        rw [hrest] at h
        simp only [Bind.bind, Except.bind, Functor.map, Except.map,
          Except.ok.injEq] at h
        cases h
        simp [isToolBlock, ih rest hrest]

/-! ### Path lemmas for `chat` -/

/-- If the retrieval step raises, the turn aborts with the history
untouched. -/
theorem chat_retrieve_error (env : Env) (st : List Msg) (input : String)
    (e : Exc) (hr : env.retrieve input = Except.error e) :
    chat env st input = (st, TurnOutcome.exc e) := by
  unfold chat
  rw [hr]

/-- A successful retrieval hands over to the first model call. -/
theorem chat_retrieve_ok (env : Env) (st : List Msg)
    (input rag_context : String)
    (hr : env.retrieve input = Except.ok rag_context) :
    chat env st input = chatAfterRetrieve env st input rag_context := by
  unfold chat
  rw [hr]

/-- If the first model call raises, the turn aborts with only the
augmented user message appended. -/
theorem chatAfterRetrieve_error (env : Env) (st : List Msg)
    (input rag_context : String) (e : Exc)
    (hm : env.modelFirst (st ++ [Msg.user (augment rag_context input)]) =
      Except.error e) :
    chatAfterRetrieve env st input rag_context =
      (st ++ [Msg.user (augment rag_context input)], TurnOutcome.exc e) := by
  simp only [chatAfterRetrieve]
  rw [hm]

/-- A successful first model call hands its message to the branch. -/
theorem chatAfterRetrieve_ok (env : Env) (st : List Msg)
    (input rag_context : String) (m : ModelMsg)
    (hm : env.modelFirst (st ++ [Msg.user (augment rag_context input)]) =
      Except.ok m) :
    chatAfterRetrieve env st input rag_context =
      chatOnModelMsg env (st ++ [Msg.user (augment rag_context input)]) m := by
  simp only [chatAfterRetrieve]
  rw [hm]

/-- If the model answers with no tool calls, its text is appended as a
plain assistant message and returned. -/
theorem chatOnModelMsg_noTools (env : Env) (st1 : List Msg) (m : ModelMsg)
    (hc : m.tool_calls = []) :
    chatOnModelMsg env st1 m =
      (st1 ++ [Msg.assistant m.content], TurnOutcome.ok m.content) := by
  simp [chatOnModelMsg, hc]

/-- If the model requests at least one tool call, stage 2 runs. -/
theorem chatOnModelMsg_tools (env : Env) (st1 : List Msg) (m : ModelMsg)
    (c : ToolCall) (cs : List ToolCall) (hc : m.tool_calls = c :: cs) :
    chatOnModelMsg env st1 m = chatWithTools env st1 m.content m.tool_calls := by
  simp [chatOnModelMsg, hc]

/-- If the tool loop raises, the turn aborts with the tool-call-bearing
assistant message already appended and no tool message appended. -/
theorem chatWithTools_error (env : Env) (st1 : List Msg) (content : String)
    (tool_calls : List ToolCall) (e : Exc)
    (hrt : runTools env.transport tool_calls = Except.error e) :
    chatWithTools env st1 content tool_calls =
      (st1 ++ [Msg.assistantCalls content tool_calls], TurnOutcome.exc e) := by
  simp only [chatWithTools]
  rw [hrt]

/-- A tool loop in which every call returned extends the history with the
complete tool block and hands over to the second model call. -/
theorem chatWithTools_ok (env : Env) (st1 : List Msg) (content : String)
    (tool_calls : List ToolCall) (tool_results : List Msg)
    (hrt : runTools env.transport tool_calls = Except.ok tool_results) :
    chatWithTools env st1 content tool_calls =
      chatAfterTools env
        (st1 ++ [Msg.assistantCalls content tool_calls] ++ tool_results) := by
  simp only [chatWithTools]
  rw [hrt]

/-- If the second model call raises, the turn aborts with the assistant
message and its complete tool block appended. -/
theorem chatAfterTools_error (env : Env) (st3 : List Msg) (e : Exc)
    (hs : env.modelSecond st3 = Except.error e) :
    chatAfterTools env st3 = (st3, TurnOutcome.exc e) := by
  unfold chatAfterTools
  rw [hs]

/-- A successful second model call appends its text as the final
assistant message and returns it. -/
theorem chatAfterTools_ok (env : Env) (st3 : List Msg)
    (final_message : String)
    (hs : env.modelSecond st3 = Except.ok final_message) :
    chatAfterTools env st3 =
      (st3 ++ [Msg.assistant final_message],
       TurnOutcome.ok final_message) := by
  unfold chatAfterTools
  rw [hs]

/-- The complete tool-call path: the turn returns the second model call's
text after appending the user message, the assistant tool-call message,
all tool messages, and the final assistant message, in that order. -/
theorem chat_complete (env : Env) (st : List Msg)
    (input rag_context : String) (m : ModelMsg) (c : ToolCall)
    (cs : List ToolCall) (tool_results : List Msg) (final_message : String)
    (hr : env.retrieve input = Except.ok rag_context)
    (hm : env.modelFirst (st ++ [Msg.user (augment rag_context input)]) =
      Except.ok m)
    (hc : m.tool_calls = c :: cs)
    (hrt : runTools env.transport m.tool_calls = Except.ok tool_results)
    (hs : env.modelSecond
        (st ++ [Msg.user (augment rag_context input),
                Msg.assistantCalls m.content m.tool_calls] ++ tool_results) =
      Except.ok final_message) :
    chat env st input =
      (st ++ [Msg.user (augment rag_context input),
              Msg.assistantCalls m.content m.tool_calls] ++ tool_results ++
        [Msg.assistant final_message],
       TurnOutcome.ok final_message) := by
  have hassoc : (st ++ [Msg.user (augment rag_context input)] ++
      [Msg.assistantCalls m.content m.tool_calls] ++ tool_results) =
      (st ++ [Msg.user (augment rag_context input),
        Msg.assistantCalls m.content m.tool_calls] ++ tool_results) := by
    simp
  rw [chat_retrieve_ok env st input rag_context hr,
    chatAfterRetrieve_ok env st input rag_context m hm,
    chatOnModelMsg_tools env _ m c cs hc,
    chatWithTools_ok env _ m.content m.tool_calls tool_results hrt,
    hassoc,
    chatAfterTools_ok env _ final_message hs]
/-- When every requested call returns a result dictionary (successful or
not), the loop yields one tool message per call, in model order, each
carrying its call's id, name and result. -/
theorem runTools_ok_of_results (tr : Transport) (res : ToolCall → PyVal) :
    ∀ cs : List ToolCall,
      (∀ c ∈ cs, execute_tool tr c.name c.args = Except.ok (res c)) →
      runTools tr cs =
        Except.ok (cs.map fun c => Msg.tool c.id c.name (res c)) := by
  intro cs
  induction cs with
  | nil => intro _; rfl
  | cons c cs ih =>
    intro h
    have hc : execute_tool tr c.name c.args = Except.ok (res c) :=
      h c (List.mem_cons_self c cs)
    have hcs : runTools tr cs =
        Except.ok (cs.map fun c => Msg.tool c.id c.name (res c)) :=
      ih (fun d hd => h d (List.mem_cons_of_mem c hd))
    simp only [runTools, hc, hcs, List.map_cons]
    rfl

/-- Dichotomy for an arbitrary turn: either the pairing invariant is
preserved, or the turn aborted inside the tool loop, leaving the
tool-call-bearing assistant message appended with none of its tool
results. -/
theorem chat_pairing_dichotomy (env : Env) (st : List Msg) (input : String)
    (st' : List Msg) (out : TurnOutcome) (hst : paired st = true)
    (h : chat env st input = (st', out)) :
    paired st' = true ∨
    ∃ (rag_context : String) (m : ModelMsg) (e : Exc),
      env.retrieve input = Except.ok rag_context ∧
      env.modelFirst (st ++ [Msg.user (augment rag_context input)]) =
        Except.ok m ∧
      runTools env.transport m.tool_calls = Except.error e ∧
      out = TurnOutcome.exc e ∧
      st' = st ++ [Msg.user (augment rag_context input),
                   Msg.assistantCalls m.content m.tool_calls] := by
  cases hr : env.retrieve input with
  | error e =>
    rw [chat_retrieve_error env st input e hr] at h
    cases h
    exact Or.inl hst
  | ok rag_context =>
    rw [chat_retrieve_ok env st input rag_context hr] at h
    cases hm : env.modelFirst (st ++ [Msg.user (augment rag_context input)]) with
    | error e =>
      rw [chatAfterRetrieve_error env st input rag_context e hm] at h
      cases h
      refine Or.inl (paired_append st _ hst ?_)
      simp [paired, pairedAux]
    | ok m =>
      rw [chatAfterRetrieve_ok env st input rag_context m hm] at h
      cases hc : m.tool_calls with
      | nil =>
        rw [chatOnModelMsg_noTools env _ m hc] at h
        cases h
        refine Or.inl ?_
        rw [List.append_assoc]
        exact paired_append st _ hst (by simp [paired, pairedAux])
      | cons c cs =>
        rw [chatOnModelMsg_tools env _ m c cs hc] at h
        cases hrt : runTools env.transport m.tool_calls with
        | error e =>
          rw [chatWithTools_error env _ m.content m.tool_calls e hrt] at h
          cases h
          exact Or.inr ⟨rag_context, m, e, rfl, hm, hrt, rfl, by simp⟩
        | ok tool_results =>
          have hblock : isToolBlock m.tool_calls tool_results = true :=
            runTools_isToolBlock env.transport m.tool_calls tool_results hrt
          rw [chatWithTools_ok env _ m.content m.tool_calls tool_results
            hrt] at h
          cases hs : env.modelSecond
              (st ++ [Msg.user (augment rag_context input)] ++
                [Msg.assistantCalls m.content m.tool_calls] ++
                tool_results) with
          | error e =>
            rw [chatAfterTools_error env _ e hs] at h
            cases h
            refine Or.inl ?_
            rw [show (st ++ [Msg.user (augment rag_context input)] ++
                [Msg.assistantCalls m.content m.tool_calls] ++ tool_results) =
                (st ++ (Msg.user (augment rag_context input) ::
                  Msg.assistantCalls m.content m.tool_calls ::
                  (tool_results ++ []))) by simp]
            exact paired_append st _ hst
              (paired_callBlock _ _ _ _ _ hblock (by rfl))
          | ok final_message =>
            rw [chatAfterTools_ok env _ final_message hs] at h
            cases h
            refine Or.inl ?_
            rw [show (st ++ [Msg.user (augment rag_context input)] ++
                [Msg.assistantCalls m.content m.tool_calls] ++ tool_results ++
                [Msg.assistant final_message]) =
                (st ++ (Msg.user (augment rag_context input) ::
                  Msg.assistantCalls m.content m.tool_calls ::
                  (tool_results ++ [Msg.assistant final_message]))) by simp]
            exact paired_append st _ hst
              (paired_callBlock _ _ _ _ _ hblock (by simp [paired, pairedAux]))

/-! ### Lemmas about the vector store -/

/-- A row is present exactly when its key occurs among the table's
primary keys. -/
theorem hasId_iff_mem (st : Store) (j : String) :
    hasId st j = true ↔ j ∈ st.map Prod.fst := by
  simp only [hasId, List.any_eq_true, decide_eq_true_eq, List.mem_map]

/-- The `DO UPDATE` branch of the upsert statement leaves the table's
primary keys unchanged. -/
theorem fst_replace (i : String) (r : Record) :
    ∀ t : Store,
      (t.map (fun p => if p.1 = i then (i, r) else p)).map Prod.fst =
        t.map Prod.fst := by
  intro t
  induction t with
  | nil => rfl
  | cons p t ih =>
    by_cases hp : p.1 = i
    · simp [hp, ih]
    · simp [hp, ih]

/-- Row presence is unchanged by the `DO UPDATE` branch. -/
theorem hasId_replace (i : String) (r : Record) (j : String) :
    ∀ t : Store,
      hasId (t.map (fun p => if p.1 = i then (i, r) else p)) j =
        hasId t j := by
  intro t
  induction t with
  | nil => rfl
  | cons p t ih =>
    simp only [List.map_cons, hasId, List.any_cons] at ih ⊢
    rw [ih]
    by_cases hp : p.1 = i <;> simp [hp]

/-- Upserting under a head row with a different key commutes with the
cons. -/
theorem sqlUpsertRow_cons_ne (k : String) (v : Record) (t : Store)
    (i : String) (r : Record) (hk : ¬k = i) :
    sqlUpsertRow ((k, v) :: t) i r = (k, v) :: sqlUpsertRow t i r := by
  have hcons : hasId ((k, v) :: t) i = hasId t i := by
    simp [hasId, List.any_cons, hk]
  by_cases h : hasId t i = true
  · rw [sqlUpsertRow, sqlUpsertRow, hcons, if_pos h, if_pos h]
    simp [hk]
  · rw [sqlUpsertRow, sqlUpsertRow, hcons, if_neg h, if_neg h,
      List.cons_append]

/-- One upsert statement grows the table by one row exactly when the key
was absent. -/
theorem len_sqlUpsertRow (st : Store) (i : String) (r : Record) :
    (sqlUpsertRow st i r).length =
      if hasId st i then st.length else st.length + 1 := by
  by_cases h : hasId st i = true <;> simp [sqlUpsertRow, h]

/-- Presence after one upsert statement: the upserted key is present and
every other key's presence is unchanged. -/
theorem hasId_sqlUpsertRow (st : Store) (i : String) (r : Record)
    (j : String) :
    hasId (sqlUpsertRow st i r) j = (hasId st j || decide (j = i)) := by
  by_cases h : hasId st i = true
  · rw [sqlUpsertRow, if_pos h, hasId_replace]
    by_cases hj : j = i
    · subst hj
      simp [h]
    · simp [hj]
  · rw [sqlUpsertRow, if_neg h]
    by_cases hj : j = i
    · subst hj
      simp [hasId, List.any_append]
    · have : ¬(i = j) := fun hc => hj hc.symm
      simp [hasId, List.any_append, hj, this]

/-- After one upsert statement the upserted key maps to the upserted
row. -/
theorem storeGet_sqlUpsertRow_self (i : String) (r : Record) :
    ∀ st : Store, storeGet (sqlUpsertRow st i r) i = some r := by
  intro st
  induction st with
  | nil => simp [sqlUpsertRow, hasId, storeGet]
  | cons p t ih =>
    rcases p with ⟨k, v⟩
    by_cases hk : k = i
    · subst hk
      have hh : hasId ((k, v) :: t) k = true := by simp [hasId]
      simp [sqlUpsertRow, hh, storeGet]
    · rw [sqlUpsertRow_cons_ne k v t i r hk]
      simp [storeGet, hk, ih]

/-- In a table with unique primary keys, one upsert statement leaves
exactly one row bearing the upserted key. -/
theorem filter_sqlUpsertRow_self (i : String) (r : Record) :
    ∀ st : Store, (st.map Prod.fst).Nodup →
      ((sqlUpsertRow st i r).filter (fun p => p.1 = i)).length = 1 := by
  intro st
  induction st with
  | nil =>
    intro _
    simp [sqlUpsertRow, hasId]
  | cons p t ih =>
    rcases p with ⟨k, v⟩
    intro hnd
    rw [List.map_cons, List.nodup_cons] at hnd
    by_cases hk : k = i
    · subst hk
      have hh : hasId ((k, v) :: t) k = true := by simp [hasId]
      have ht : ∀ p ∈ t, ¬((p : String × Record).1 = k) := by
        intro p hp hpk
        exact hnd.1 (List.mem_map.mpr ⟨p, hp, hpk⟩)
      have hmap : t.map (fun p => if p.1 = k then (k, r) else p) = t := by
        have hcongr := List.map_congr_left
          (f := fun p : String × Record => if p.1 = k then (k, r) else p)
          (g := id) (l := t) (fun p hp => if_neg (ht p hp))
        rw [hcongr, List.map_id]
      have hfil : t.filter (fun p => p.1 = k) = [] :=
        List.filter_eq_nil_iff.mpr (fun p hp => by simpa using ht p hp)
      simp [sqlUpsertRow, hh, hmap, List.filter_cons, hfil]
    · rw [sqlUpsertRow_cons_ne k v t i r hk]
      rw [List.filter_cons_of_neg (by simpa using hk)]
      exact ih hnd.2

/-- One upsert statement preserves primary-key uniqueness. -/
theorem nodup_sqlUpsertRow (i : String) (r : Record) (st : Store)
    (h : (st.map Prod.fst).Nodup) :
    ((sqlUpsertRow st i r).map Prod.fst).Nodup := by
  by_cases hh : hasId st i = true
  · rw [sqlUpsertRow, if_pos hh, fst_replace]
    exact h
  · rw [sqlUpsertRow, if_neg hh]
    rw [List.map_append]
    simp only [List.map_cons, List.map_nil]
    rw [List.nodup_append]
    refine ⟨h, List.nodup_singleton i, ?_⟩
    intro a ha hb
    simp only [List.mem_singleton] at hb
    subst hb
    exact hh ((hasId_iff_mem st a).mpr ha)

/-- Batch `upsert` over rows whose ids are all present leaves `count`
unchanged. -/
theorem count_upsert_present :
    ∀ (docs : List Doc) (embs : List (List Int)) (st : Store),
      (∀ d ∈ docs, hasId st d.id = true) →
      count (upsert st docs embs) = count st := by
  intro docs
  induction docs with
  | nil =>
    intro embs st _
    rfl
  | cons d ds ih =>
    intro embs st hall
    cases embs with
    | nil => rfl
    | cons e es =>
      have hd : hasId st d.id = true := hall d (List.mem_cons_self d ds)
      have hstep : upsert st (d :: ds) (e :: es) =
          upsert (sqlUpsertRow st d.id ⟨d.text, d.metadata, e⟩) ds es := by
        simp [upsert, List.zip_cons_cons, List.foldl_cons]
      rw [hstep, ih es _ (fun x hx => by
        rw [hasId_sqlUpsertRow, hall x (List.mem_cons_of_mem d hx)]
        rfl)]
      simp [count, len_sqlUpsertRow, hd]

/-- Batch `upsert` of id-distinct rows grows `count` by exactly the number of
genuinely new ids. -/
theorem count_upsert_new :
    ∀ (docs : List Doc) (embs : List (List Int)) (st : Store),
      docs.length = embs.length → (docs.map Doc.id).Nodup →
      count (upsert st docs embs) =
        count st + (docs.filter (fun d => !hasId st d.id)).length := by
  intro docs
  induction docs with
  | nil =>
    intro embs st _ _
    rfl
  | cons d ds ih =>
    intro embs st hlen hnd
    cases embs with
    | nil => simp at hlen
    | cons e es =>
      rw [List.map_cons, List.nodup_cons] at hnd
      have hne : ∀ x ∈ ds, ¬((x : Doc).id = d.id) := by
        intro x hx hxd
        exact hnd.1 (List.mem_map.mpr ⟨x, hx, hxd⟩)
      have hstep : upsert st (d :: ds) (e :: es) =
          upsert (sqlUpsertRow st d.id ⟨d.text, d.metadata, e⟩) ds es := by
        simp [upsert, List.zip_cons_cons, List.foldl_cons]
      have hfil : ds.filter
          (fun x =>
            !hasId (sqlUpsertRow st d.id ⟨d.text, d.metadata, e⟩) x.id) =
          ds.filter (fun x => !hasId st x.id) := by
        refine List.filter_congr ?_
        intro x hx
        rw [hasId_sqlUpsertRow]
        simp [hne x hx]
      rw [hstep, ih es _ (by simpa using hlen) hnd.2, hfil]
      rw [List.filter_cons]
      by_cases hd : hasId st d.id = true
      · simp [count, len_sqlUpsertRow, hd]
      · have hd' : hasId st d.id = false := by simpa using hd
        simp only [count, len_sqlUpsertRow, hd', Bool.not_false,
          Bool.false_eq_true, if_false, if_true, List.length_cons]
        omega

/-! ### The claims -/

/-- C1. Message-pairing invariant: if the session history satisfies the
pairing invariant (every tool-call-bearing assistant message is followed,
before anything else, by exactly one tool message per call identifier it
issued, each cross-referenced by that identifier, and no tool message
appears without its preceding matching call), then after any completed
turn of `HiveAgent.chat` — in particular any turn that involved tool
calls — the history still satisfies it. -/
theorem claim1_message_pairing_invariant (env : Env) (st : List Msg)
    (user_input : String) (st' : List Msg) (answer : String)
    (hst : paired st = true)
    (h : chat env st user_input = (st', TurnOutcome.ok answer)) :
    paired st' = true := by
  rcases chat_pairing_dichotomy env st user_input st' (TurnOutcome.ok answer)
      hst h with hp | ⟨_, _, _, _, _, _, hout, _⟩
  · exact hp
  · cases hout

/-- Witness for C1: a fresh session (whose history `[system]` satisfies
the invariant) run through a complete single-tool turn still satisfies
the invariant. -/
theorem claim1_witness :
    paired (chat envSingle initMessages "what databases exist?").1 = true :=
  claim1_message_pairing_invariant envSingle initMessages
    "what databases exist?" _ "There are two databases." (by rfl)
    (by rfl)

/-- C2. A turn of `chat` in which the model requests k ≥ 1 tool calls
grows the history by exactly 3 + k messages, in order: the augmented
user message, the assistant tool-call message unchanged, one tool
message per call in model-returned order, and a final assistant message
whose content is the returned string. -/
theorem claim2_tool_turn_growth (env : Env) (st : List Msg)
    (user_input rag_context : String) (m : ModelMsg) (c : ToolCall)
    (cs : List ToolCall) (tool_results : List Msg) (final_message : String)
    (hr : env.retrieve user_input = Except.ok rag_context)
    (hm : env.modelFirst (st ++ [Msg.user (augment rag_context user_input)]) =
      Except.ok m)
    (hc : m.tool_calls = c :: cs)
    (hrt : runTools env.transport m.tool_calls = Except.ok tool_results)
    (hs : env.modelSecond
        (st ++ [Msg.user (augment rag_context user_input),
                Msg.assistantCalls m.content m.tool_calls] ++ tool_results) =
      Except.ok final_message) :
    chat env st user_input =
      (st ++ [Msg.user (augment rag_context user_input),
              Msg.assistantCalls m.content m.tool_calls] ++ tool_results ++
        [Msg.assistant final_message],
       TurnOutcome.ok final_message)
    ∧ isToolBlock m.tool_calls tool_results = true
    ∧ tool_results.length = m.tool_calls.length
    ∧ (chat env st user_input).1.length =
        st.length + 3 + m.tool_calls.length := by
  have hshape := chat_complete env st user_input rag_context m c cs
    tool_results final_message hr hm hc hrt hs
  have hblock : isToolBlock m.tool_calls tool_results = true :=
    runTools_isToolBlock env.transport _ _ hrt
  have hlen : tool_results.length = m.tool_calls.length :=
    isToolBlock_length _ _ hblock
  refine ⟨hshape, hblock, hlen, ?_⟩
  rw [hshape]
  simp only [List.length_append, List.length_cons, List.length_nil, hlen]
  omega

/-- Witness for C2: the single-tool end-to-end turn on a fresh session
leaves history with exactly 5 messages, with roles system, user,
assistant (bearing the tool call), tool, assistant. -/
theorem claim2_witness :
    (chat envSingle initMessages "what databases exist?").1.length =
      1 + 3 + 1
    ∧ (chat envSingle initMessages "what databases exist?").1.map Msg.role =
        ["system", "user", "assistant", "tool", "assistant"] :=
  ⟨(claim2_tool_turn_growth envSingle initMessages "what databases exist?"
      "docs" ⟨"", [⟨"call_1", "list_databases", []⟩]⟩
      ⟨"call_1", "list_databases", []⟩ [] _ "There are two databases."
      rfl rfl rfl (by rfl) (by rfl)).2.2.2,
   by rfl⟩

/-- C3. Within one turn the requested tool calls are executed
sequentially in model-returned order, and each invocation is independent
of the others: whenever every dispatched call returns a result
dictionary — successful or not, an unsuccessful envelope from the
External API Client included — the loop yields exactly one tool result
message per call, in order, so a failed call never prevents the
remaining calls from producing theirs. -/
theorem claim3_sequential_independent (tr : Transport)
    (res : ToolCall → PyVal) (tool_calls : List ToolCall)
    (h : ∀ c ∈ tool_calls, execute_tool tr c.name c.args =
      Except.ok (res c)) :
    runTools tr tool_calls =
      Except.ok (tool_calls.map fun c => Msg.tool c.id c.name (res c)) :=
  runTools_ok_of_results tr res tool_calls h

/-- Witness for C3: two calls under `trMixed`; the first returns an
unsuccessful (HTTP 500) envelope and the second still produces its tool
message. -/
theorem claim3_witness :
    runTools trMixed
      [⟨"c1", "list_tables", [("schema", PyVal.str "public")]⟩,
       ⟨"c2", "list_databases", []⟩] =
      Except.ok
        [Msg.tool "c1" "list_tables"
          (resMixed ⟨"c1", "list_tables", [("schema", PyVal.str "public")]⟩),
         Msg.tool "c2" "list_databases"
          (resMixed ⟨"c2", "list_databases", []⟩)]
    ∧ pyGet (resMixed ⟨"c1", "list_tables", [("schema", PyVal.str "public")]⟩)
        "success" = some (PyVal.bool false) :=
  ⟨claim3_sequential_independent trMixed resMixed
      [⟨"c1", "list_tables", [("schema", PyVal.str "public")]⟩,
       ⟨"c2", "list_databases", []⟩]
      (by
        intro c hc
        simp only [List.mem_cons, List.not_mem_nil, or_false] at hc
        rcases hc with rfl | rfl <;> rfl),
   by rfl⟩

/-- C4. Unknown-tool resilience: dispatching any tool name outside the
catalog `{delete_table, create_table, get_table_info, list_tables,
list_databases}` through `execute_tool` returns the
`{"success": false, "error": …}` sentinel — for every argument mapping
and every transport, without raising — and a turn whose model response
requests such a tool still completes and returns a final textual
answer. -/
theorem claim4_unknown_tool_resilience (env : Env) (st : List Msg)
    (user_input rag_context mc cid final_message tool_name : String)
    (args : List (String × PyVal))
    (hname : knownTool tool_name = false)
    (hr : env.retrieve user_input = Except.ok rag_context)
    (hm : env.modelFirst (st ++ [Msg.user (augment rag_context user_input)]) =
      Except.ok ⟨mc, [⟨cid, tool_name, args⟩]⟩)
    (hs : env.modelSecond
        (st ++ [Msg.user (augment rag_context user_input),
                Msg.assistantCalls mc [⟨cid, tool_name, args⟩],
                Msg.tool cid tool_name (unknownToolResult tool_name)]) =
      Except.ok final_message) :
    (∀ (tr : Transport) (a : List (String × PyVal)),
        execute_tool tr tool_name a =
          Except.ok (unknownToolResult tool_name))
    ∧ pyGet (unknownToolResult tool_name) "success" =
        some (PyVal.bool false)
    ∧ (chat env st user_input).2 = TurnOutcome.ok final_message := by
  simp only [knownTool, Bool.or_eq_false_iff, decide_eq_false_iff_not]
    at hname
  obtain ⟨⟨⟨⟨h1, h2⟩, h3⟩, h4⟩, h5⟩ := hname
  have hexec : ∀ (tr : Transport) (a : List (String × PyVal)),
      execute_tool tr tool_name a =
        Except.ok (unknownToolResult tool_name) := by
    intro tr a
    simp [execute_tool, h1, h2, h3, h4, h5]
    rfl
  have hrt : runTools env.transport [⟨cid, tool_name, args⟩] =
      Except.ok [Msg.tool cid tool_name (unknownToolResult tool_name)] := by
    have := runTools_ok_of_results env.transport
      (fun _ => unknownToolResult tool_name) [⟨cid, tool_name, args⟩]
      (by
        intro c hc
        simp only [List.mem_cons, List.not_mem_nil, or_false] at hc
        subst hc
        exact hexec env.transport args)
    simpa using this
  have hs' : env.modelSecond
      (st ++ [Msg.user (augment rag_context user_input),
              Msg.assistantCalls mc [⟨cid, tool_name, args⟩]] ++
        [Msg.tool cid tool_name (unknownToolResult tool_name)]) =
      Except.ok final_message := by
    rw [show (st ++ [Msg.user (augment rag_context user_input),
        Msg.assistantCalls mc [⟨cid, tool_name, args⟩]] ++
        [Msg.tool cid tool_name (unknownToolResult tool_name)]) =
        (st ++ [Msg.user (augment rag_context user_input),
          Msg.assistantCalls mc [⟨cid, tool_name, args⟩],
          Msg.tool cid tool_name (unknownToolResult tool_name)]) by simp]
    exact hs
  have hfull := chat_complete env st user_input rag_context
    ⟨mc, [⟨cid, tool_name, args⟩]⟩ ⟨cid, tool_name, args⟩ []
    [Msg.tool cid tool_name (unknownToolResult tool_name)] final_message
    hr hm rfl hrt hs'
  exact ⟨hexec, rfl, by rw [hfull]⟩

/-- Witness for C4: the model asks for the non-catalog tool
`drop_database`; the dispatcher returns the error envelope and the turn
still returns the final answer. -/
theorem claim4_witness :
    execute_tool tr200 "drop_database" [("name", PyVal.str "p")] =
      Except.ok (unknownToolResult "drop_database")
    ∧ (chat envUnknown initMessages "drop the production database").2 =
        TurnOutcome.ok "Sorry, I cannot do that." :=
  have h := claim4_unknown_tool_resilience envUnknown initMessages
    "drop the production database" "docs" "" "call_1"
    "Sorry, I cannot do that." "drop_database" [("name", PyVal.str "p")]
    rfl rfl rfl (by rfl)
  ⟨h.1 tr200 [("name", PyVal.str "p")], h.2.2⟩

/-- C5 counterexample: the claim is false on the code. Dispatching the
known tool `delete_table` with an empty argument mapping does not return
a result envelope — the dispatch lambda subscripts the missing key and
raises `KeyError("schema")` — and a turn whose model response requests
that call aborts with the exception instead of producing a tool
message. -/
theorem claim5_counterexample :
    execute_tool tr200 "delete_table" [] =
      Except.error (Exc.keyError "schema")
    ∧ (chat envKeyErr initMessages "drop public.measure").2 =
        TurnOutcome.exc (Exc.keyError "schema") :=
  ⟨rfl, rfl⟩

/-- C5 (amended). `execute_tool` performs no validation of the argument
mapping: it only reads the tool's declared argument keys, so extra keys
are ignored — for every tool name, two argument mappings that agree on
the declared keys produce identical results — and for a known tool a
missing declared key makes the dispatch lambda raise a `KeyError` naming
the first missing key in declaration order, aborting the turn rather
than yielding a result envelope. Only the unknown-tool outcome is a
non-raising error envelope. -/
theorem claim5_no_validation (tr : Transport) (tool_name : String)
    (args1 args2 : List (String × PyVal))
    (hagree : ∀ k ∈ declaredKeys tool_name,
      dictGet args1 k = dictGet args2 k) :
    execute_tool tr tool_name args1 = execute_tool tr tool_name args2
    ∧ (∀ k : String, knownTool tool_name = true →
        (declaredKeys tool_name).find?
            (fun key => (dictGet args1 key).isNone) = some k →
        execute_tool tr tool_name args1 =
          Except.error (Exc.keyError k)) := by
  by_cases h1 : tool_name = "delete_table"
  · subst h1
    have hs : dictGet args1 "schema" = dictGet args2 "schema" :=
      hagree "schema" (by simp [declaredKeys])
    have htn : dictGet args1 "table_name" = dictGet args2 "table_name" :=
      hagree "table_name" (by simp [declaredKeys])
    constructor
    · simp [execute_tool, getItem, hs, htn]
    · intro k _ hfind
      cases hdgs : dictGet args1 "schema" with
      | none =>
        simp only [declaredKeys, List.find?, hdgs, Option.isNone_none,
          if_pos] at hfind
        cases hfind
        simp [execute_tool, getItem, hdgs, Bind.bind, Except.bind]
      | some v =>
        cases hdgt : dictGet args1 "table_name" with
        | none =>
          simp only [declaredKeys, List.find?, hdgs, hdgt,
            Option.isNone_none, Option.isNone_some] at hfind
          cases hfind
          simp [execute_tool, getItem, hdgs, hdgt, Bind.bind, Except.bind]
        | some w =>
          simp [declaredKeys, List.find?, hdgs, hdgt] at hfind
  · by_cases h2 : tool_name = "create_table"
    · subst h2
      have hs : dictGet args1 "schema" = dictGet args2 "schema" :=
        hagree "schema" (by simp [declaredKeys])
      have htn : dictGet args1 "table_name" = dictGet args2 "table_name" :=
        hagree "table_name" (by simp [declaredKeys])
      have hco : dictGet args1 "columns" = dictGet args2 "columns" :=
        hagree "columns" (by simp [declaredKeys])
      constructor
      · simp [execute_tool, getItem, hs, htn, hco]
      · intro k _ hfind
        cases hdgs : dictGet args1 "schema" with
        | none =>
          simp only [declaredKeys, List.find?, hdgs, Option.isNone_none,
            if_pos] at hfind
          cases hfind
          simp [execute_tool, getItem, hdgs, Bind.bind, Except.bind]
        | some v =>
          cases hdgt : dictGet args1 "table_name" with
          | none =>
            simp only [declaredKeys, List.find?, hdgs, hdgt,
              Option.isNone_none, Option.isNone_some] at hfind
            cases hfind
            simp [execute_tool, getItem, hdgs, hdgt, Bind.bind, Except.bind]
          | some w =>
            cases hdgc : dictGet args1 "columns" with
            | none =>
              simp only [declaredKeys, List.find?, hdgs, hdgt, hdgc,
                Option.isNone_none, Option.isNone_some] at hfind
              cases hfind
              simp [execute_tool, getItem, hdgs, hdgt, hdgc, Bind.bind,
                Except.bind]
            | some u =>
              simp [declaredKeys, List.find?, hdgs, hdgt, hdgc] at hfind
    · by_cases h3 : tool_name = "get_table_info"
      · subst h3
        have hs : dictGet args1 "schema" = dictGet args2 "schema" :=
          hagree "schema" (by simp [declaredKeys])
        have htn : dictGet args1 "table_name" = dictGet args2 "table_name" :=
          hagree "table_name" (by simp [declaredKeys])
        constructor
        · simp [execute_tool, getItem, hs, htn]
        · intro k _ hfind
          cases hdgs : dictGet args1 "schema" with
          | none =>
            simp only [declaredKeys, List.find?, hdgs, Option.isNone_none,
              if_pos] at hfind
            cases hfind
            simp [execute_tool, getItem, hdgs, Bind.bind, Except.bind]
          | some v =>
            cases hdgt : dictGet args1 "table_name" with
            | none =>
              simp only [declaredKeys, List.find?, hdgs, hdgt,
                Option.isNone_none, Option.isNone_some] at hfind
              cases hfind
              simp [execute_tool, getItem, hdgs, hdgt, Bind.bind,
                Except.bind]
            | some w =>
              simp [declaredKeys, List.find?, hdgs, hdgt] at hfind
      · by_cases h4 : tool_name = "list_tables"
        · subst h4
          have hs : dictGet args1 "schema" = dictGet args2 "schema" :=
            hagree "schema" (by simp [declaredKeys])
          constructor
          · simp [execute_tool, getItem, hs]
          · intro k _ hfind
            cases hdgs : dictGet args1 "schema" with
            | none =>
              simp only [declaredKeys, List.find?, hdgs, Option.isNone_none,
                if_pos] at hfind
              cases hfind
              simp [execute_tool, getItem, hdgs, Bind.bind, Except.bind]
            | some v =>
              simp [declaredKeys, List.find?, hdgs] at hfind
        · by_cases h5 : tool_name = "list_databases"
          · subst h5
            constructor
            · rfl
            · intro k _ hfind
              simp [declaredKeys, List.find?] at hfind
          · constructor
            · simp [execute_tool, h1, h2, h3, h4, h5]
            · intro k hknown _
              simp [knownTool, h1, h2, h3, h4, h5] at hknown

/-- Witness for C5 (amended): for `delete_table`, an extra key `extra`
does not change the dispatch result, and omitting `table_name` raises
`KeyError("table_name")`. -/
theorem claim5_witness :
    execute_tool tr200 "delete_table"
        [("schema", PyVal.str "public"), ("table_name", PyVal.str "m"),
         ("extra", PyVal.num 1)] =
      execute_tool tr200 "delete_table"
        [("schema", PyVal.str "public"), ("table_name", PyVal.str "m")]
    ∧ execute_tool tr200 "delete_table" [("schema", PyVal.str "public")] =
        Except.error (Exc.keyError "table_name") :=
  ⟨(claim5_no_validation tr200 "delete_table"
      [("schema", PyVal.str "public"), ("table_name", PyVal.str "m"),
       ("extra", PyVal.num 1)]
      [("schema", PyVal.str "public"), ("table_name", PyVal.str "m")]
      (by
        intro k hk
        simp only [declaredKeys, if_pos, List.mem_cons, List.not_mem_nil,
          or_false] at hk
        rcases hk with rfl | rfl <;> rfl)).1,
   (claim5_no_validation tr200 "delete_table"
      [("schema", PyVal.str "public")] [("schema", PyVal.str "public")]
      (fun _ _ => rfl)).2 "table_name" rfl rfl⟩

/-- C6 counterexample: the claim is false on the code. A turn aborted by
an exception inside the tool loop (here a `KeyError` from a missing tool
argument) leaves history ending with the tool-call-bearing assistant
message and none of its tool result messages — the assistant message is
appended before the loop runs (agent.py line 110) while the tool
messages are only appended after all calls complete (line 133) — so the
history left behind violates the pairing invariant. -/
theorem claim6_counterexample :
    (chat envKeyErr initMessages "drop public.measure").1 =
      [Msg.system SYSTEM_PROMPT,
       Msg.user (augment "docs" "drop public.measure"),
       Msg.assistantCalls "" [⟨"call_1", "delete_table", []⟩]]
    ∧ (chat envKeyErr initMessages "drop public.measure").2 =
        TurnOutcome.exc (Exc.keyError "schema")
    ∧ paired (chat envKeyErr initMessages "drop public.measure").1 =
        false :=
  ⟨rfl, rfl, rfl⟩

/-- C6 (amended). If a hard failure aborts a turn of `chat`, the history
left behind remains self-consistent (the pairing invariant is preserved)
in every case except one: a failure raised inside the tool loop, which
leaves the tool-call-bearing assistant message appended with none of its
tool result messages, because the assistant message is appended before
the calls execute and the accumulated tool messages are appended only
after all calls complete. -/
theorem claim6_abort_consistency (env : Env) (st : List Msg)
    (user_input : String) (st' : List Msg) (out : TurnOutcome)
    (hst : paired st = true) (h : chat env st user_input = (st', out)) :
    paired st' = true ∨
    ∃ (rag_context : String) (m : ModelMsg) (e : Exc),
      env.retrieve user_input = Except.ok rag_context ∧
      env.modelFirst (st ++ [Msg.user (augment rag_context user_input)]) =
        Except.ok m ∧
      runTools env.transport m.tool_calls = Except.error e ∧
      out = TurnOutcome.exc e ∧
      st' = st ++ [Msg.user (augment rag_context user_input),
                   Msg.assistantCalls m.content m.tool_calls] :=
  chat_pairing_dichotomy env st user_input st' out hst h

/-- Witness for C6 (amended): the aborted `delete_table` turn lands in
one of the two branches of the amended statement. -/
theorem claim6_witness :
    paired (chat envKeyErr initMessages "drop public.measure").1 = true ∨
    ∃ (rag_context : String) (m : ModelMsg) (e : Exc),
      envKeyErr.retrieve "drop public.measure" = Except.ok rag_context ∧
      envKeyErr.modelFirst (initMessages ++
          [Msg.user (augment rag_context "drop public.measure")]) =
        Except.ok m ∧
      runTools envKeyErr.transport m.tool_calls = Except.error e ∧
      (chat envKeyErr initMessages "drop public.measure").2 =
        TurnOutcome.exc e ∧
      (chat envKeyErr initMessages "drop public.measure").1 =
        initMessages ++ [Msg.user (augment rag_context "drop public.measure"),
                         Msg.assistantCalls m.content m.tool_calls] :=
  claim6_abort_consistency envKeyErr initMessages "drop public.measure"
    (chat envKeyErr initMessages "drop public.measure").1
    (chat envKeyErr initMessages "drop public.measure").2 rfl rfl

/-- C7. Order preservation of `embed_batch`: for every list of N input
texts, whenever the backend's response contains exactly one
(index, embedding) entry per input — in whatever order the transport
delivers them — the returned sequence has exactly N vectors ordered
identically to the input, vector i being the embedding of text i,
because the result is reordered by each entry's declared input index. -/
theorem claim7_embed_batch_order (texts : List String)
    (f : String → List Int) (data : List EmbItem)
    (hperm : data.Perm (canonicalResponse texts f)) :
    embed_batch data = texts.map f := by
  have hms_perm : (data.mergeSort
        (fun a b => a.index ≤ b.index)).Perm (canonicalResponse texts f) :=
    (List.mergeSort_perm data _).trans hperm
  have hs : List.Pairwise (fun a b : EmbItem => a.index ≤ b.index)
      (data.mergeSort (fun a b => a.index ≤ b.index)) := by
    have := @List.sorted_mergeSort EmbItem
      (fun a b => decide (a.index ≤ b.index))
      (fun a b c hab hbc => by
        simp only [decide_eq_true_eq] at hab hbc ⊢
        omega)
      (fun a b => by
        simp only [Bool.or_eq_true, decide_eq_true_eq]
        omega)
      data
    exact this.imp (by simp only [decide_eq_true_eq]; exact fun h => h)
  have htgtidx : (canonicalResponse texts f).map EmbItem.index =
      List.range texts.length := by
    rw [canonicalResponse, List.map_map]
    have hcomp : (EmbItem.index ∘
        fun i => (⟨i, f (texts.getD i "")⟩ : EmbItem)) = id := rfl
    rw [hcomp, List.map_id]
  have hnodup_tgt : ((canonicalResponse texts f).map EmbItem.index).Nodup := by
    rw [htgtidx]
    exact List.nodup_range _
  have hnodup_ms : ((data.mergeSort
      (fun a b => a.index ≤ b.index)).map EmbItem.index).Nodup :=
    (List.Perm.nodup_iff (List.Perm.map EmbItem.index hms_perm)).mpr
      hnodup_tgt
  have hne : List.Pairwise (fun a b : EmbItem => a.index ≠ b.index)
      (data.mergeSort (fun a b => a.index ≤ b.index)) :=
    List.pairwise_map.mp hnodup_ms
  have hlt_ms : List.Pairwise (fun a b : EmbItem => a.index < b.index)
      (data.mergeSort (fun a b => a.index ≤ b.index)) :=
    (hs.and hne).imp (fun h => lt_of_le_of_ne h.1 h.2)
  have hlt_tgt : List.Pairwise (fun a b : EmbItem => a.index < b.index)
      (canonicalResponse texts f) := by
    rw [canonicalResponse, List.pairwise_map]
    simpa using List.pairwise_lt_range texts.length
  haveI : IsAntisymm EmbItem (fun a b => a.index < b.index) :=
    ⟨fun a b h1 h2 => absurd (h1.trans h2) (lt_irrefl _)⟩
  have heq : data.mergeSort (fun a b => a.index ≤ b.index) =
      canonicalResponse texts f :=
    List.eq_of_perm_of_sorted hms_perm hlt_ms hlt_tgt
  rw [embed_batch, heq, canonicalResponse, List.map_map]
  refine List.ext_getElem (by simp) ?_
  intro n h1 h2
  simp only [List.getElem_map, List.getElem_range, Function.comp]
  have hn : n < texts.length := by simpa using h2
  rw [List.getD_eq_getElem texts "" hn]

/-- Witness for C7: a three-text batch whose backend response arrives
out of order is still returned in input order. -/
theorem claim7_witness :
    ([⟨1, [2]⟩, ⟨2, [1]⟩, ⟨0, [5]⟩] : List EmbItem).Perm
      (canonicalResponse ["alpha", "bb", "c"]
        (fun s => [(s.length : Int)]))
    ∧ embed_batch [⟨1, [2]⟩, ⟨2, [1]⟩, ⟨0, [5]⟩] =
        ["alpha", "bb", "c"].map (fun s => [(s.length : Int)]) :=
  ⟨by decide,
   claim7_embed_batch_order ["alpha", "bb", "c"]
    (fun s => [(s.length : Int)]) [⟨1, [2]⟩, ⟨2, [1]⟩, ⟨0, [5]⟩]
    (by decide)⟩

/-- C8. `upsert` is insert-or-replace keyed by id: on a table with
unique primary keys, upserting the same id twice with different
text/metadata/embedding leaves exactly one row for that id, bearing the
second write's text, metadata, and embedding; `count()` is unchanged by
upserts whose ids are all already present; and for id-distinct batches
`count()` increases exactly by the number of genuinely new ids. -/
theorem claim8_upsert_insert_or_replace (st : Store)
    (hwf : (st.map Prod.fst).Nodup) (d1 d2 : Doc) (e1 e2 : List Int)
    (hid : d1.id = d2.id) :
    ((upsert (upsert st [d1] [e1]) [d2] [e2]).filter
        (fun p => p.1 = d1.id)).length = 1
    ∧ storeGet (upsert (upsert st [d1] [e1]) [d2] [e2]) d1.id =
        some ⟨d2.text, d2.metadata, e2⟩
    ∧ (∀ (docs : List Doc) (embs : List (List Int)),
        (∀ d ∈ docs, hasId st d.id = true) →
        count (upsert st docs embs) = count st)
    ∧ (∀ (docs : List Doc) (embs : List (List Int)),
        docs.length = embs.length → (docs.map Doc.id).Nodup →
        count (upsert st docs embs) =
          count st + (docs.filter (fun d => !hasId st d.id)).length) := by
  have hone : upsert st [d1] [e1] =
      sqlUpsertRow st d1.id ⟨d1.text, d1.metadata, e1⟩ := rfl
  have htwo : upsert (upsert st [d1] [e1]) [d2] [e2] =
      sqlUpsertRow (sqlUpsertRow st d1.id ⟨d1.text, d1.metadata, e1⟩)
        d2.id ⟨d2.text, d2.metadata, e2⟩ := by
    rw [hone]
    rfl
  have hwf1 : ((sqlUpsertRow st d1.id
      ⟨d1.text, d1.metadata, e1⟩).map Prod.fst).Nodup :=
    nodup_sqlUpsertRow d1.id _ st hwf
  have hwf2 : ((sqlUpsertRow st d2.id
      ⟨d1.text, d1.metadata, e1⟩).map Prod.fst).Nodup := by
    rw [← hid]
    exact hwf1
  refine ⟨?_, ?_, ?_, ?_⟩
  · rw [htwo, hid]
    exact filter_sqlUpsertRow_self d2.id _ _ hwf2
  · rw [htwo, hid]
    exact storeGet_sqlUpsertRow_self d2.id _ _
  · intro docs embs hall
    exact count_upsert_present docs embs st hall
  · intro docs embs hlen hnd
    exact count_upsert_new docs embs st hlen hnd

/-- Witness for C8: two upserts of id `d1` into an empty table leave one
row holding the second write's text, metadata and embedding; the table
has exactly one row. -/
theorem claim8_witness :
    ((upsert (upsert [] [⟨"d1", "first", []⟩] [[1]])
        [⟨"d1", "second", [("k", PyVal.str "v")]⟩] [[2]]).filter
      (fun p => p.1 = "d1")).length = 1
    ∧ storeGet (upsert (upsert [] [⟨"d1", "first", []⟩] [[1]])
        [⟨"d1", "second", [("k", PyVal.str "v")]⟩] [[2]]) "d1" =
      some ⟨"second", [("k", PyVal.str "v")], [2]⟩ :=
  have h := claim8_upsert_insert_or_replace [] List.nodup_nil
    ⟨"d1", "first", []⟩ ⟨"d1", "second", [("k", PyVal.str "v")]⟩
    [1] [2] rfl
  ⟨h.1, h.2.1⟩

/-- C9. Lazy index build: `RAGRetriever.__init__` builds the index
exactly when the bound collection is empty. Against a collection with
`count() = 0` it loads the corpus, batch-embeds it and upserts it, so
`count()` afterwards equals the corpus size (given the corpus has
distinct ids and the embedder returns one vector per text); against a
collection with `count() > 0` it performs no writes and the contents are
unchanged. -/
theorem claim9_lazy_index_build (corpus : List Doc)
    (embedB : List String → List (List Int)) (st : Store)
    (hnodup : (corpus.map Doc.id).Nodup)
    (hlen : (embedB (corpus.map Doc.text)).length = corpus.length) :
    (count st = 0 → count (retrieverInit corpus embedB st) = corpus.length)
    ∧ (count st ≠ 0 → retrieverInit corpus embedB st = st) := by
  constructor
  · intro h0
    have hnil : st = [] := List.length_eq_zero.mp h0
    subst hnil
    rw [retrieverInit, if_pos h0]
    rw [count_upsert_new corpus _ [] hlen.symm hnodup]
    have hall : corpus.filter (fun d => !hasId [] d.id) = corpus := by
      rw [List.filter_eq_self]
      intro d _
      rfl
    rw [hall]
    simp [count]
  · intro hne
    rw [retrieverInit, if_neg hne]

/-- Witness for C9: a two-document corpus indexed into an empty
collection yields `count() = 2`; a non-empty collection is returned
untouched. -/
theorem claim9_witness :
    count (retrieverInit [⟨"d1", "a", []⟩, ⟨"d2", "b", []⟩]
      (fun ts => ts.map (fun _ => [0])) []) = 2
    ∧ retrieverInit [⟨"d1", "a", []⟩, ⟨"d2", "b", []⟩]
        (fun ts => ts.map (fun _ => [0]))
        [("x", ⟨"t", [], [7]⟩)] = [("x", ⟨"t", [], [7]⟩)] :=
  ⟨(claim9_lazy_index_build [⟨"d1", "a", []⟩, ⟨"d2", "b", []⟩]
      (fun ts => ts.map (fun _ => [0])) [] (by decide) rfl).1 rfl,
   (claim9_lazy_index_build [⟨"d1", "a", []⟩, ⟨"d2", "b", []⟩]
      (fun ts => ts.map (fun _ => [0])) [("x", ⟨"t", [], [7]⟩)]
      (by decide) rfl).2 (by simp [count])⟩

/-- C10. `_handle_response` is total over HTTP responses: for every
response it returns a dictionary with exactly the keys `status_code`,
`success` and `data` (and raises nothing — it is a total function of the
response); `success` is true exactly when the status code lies in the
2xx class; when the body is not parseable as JSON the `data` field is
`{"raw": <body text>}` rather than an error; and when it is parseable,
`data` is the parsed body. -/
theorem claim10_handle_response_total (r : HttpResponse) :
    pyKeys (handle_response r) = ["status_code", "success", "data"]
    ∧ pyGet (handle_response r) "status_code" =
        some (PyVal.num r.status_code)
    ∧ (pyGet (handle_response r) "success" = some (PyVal.bool true) ↔
        200 ≤ r.status_code ∧ r.status_code < 300)
    ∧ (r.json = none →
        pyGet (handle_response r) "data" =
          some (PyVal.obj [("raw", PyVal.str r.text)]))
    ∧ (∀ j, r.json = some j →
        pyGet (handle_response r) "data" = some j) := by
  refine ⟨rfl, rfl, ?_, ?_, ?_⟩
  · constructor
    · intro h
      simp [handle_response, pyGet, dictGet] at h
      exact h
    · intro h
      simp [handle_response, pyGet, dictGet, h]
  · intro hj
    simp [handle_response, pyGet, dictGet, hj]
  · intro j hj
    simp [handle_response, pyGet, dictGet, hj]

/-- Witness for C10: a 404 response with an unparseable body yields
`success = false` is visible through the iff, and the raw-text fallback
in `data`. -/
theorem claim10_witness :
    pyGet (handle_response ⟨404, none, "not found"⟩) "data" =
      some (PyVal.obj [("raw", PyVal.str "not found")])
    ∧ ¬(pyGet (handle_response ⟨404, none, "not found"⟩) "success" =
        some (PyVal.bool true)) :=
  ⟨(claim10_handle_response_total ⟨404, none, "not found"⟩).2.2.2.1 rfl,
   fun h =>
    absurd ((claim10_handle_response_total
      ⟨404, none, "not found"⟩).2.2.1.mp h) (by decide)⟩

end HiveSpec
